import Mathlib

/-!
Verification of the IP/CIDR reconciliation core of the emerging-threats
blocklist generator (main.go).

The Go source is shallowly embedded: strings are Lean `String`s, the Go
`map[string]struct{}` sets are `List String` reasoned about up to
membership, and 32-bit unsigned arithmetic is `Nat` with explicit
`% 2 ^ 32` where the Go code can wrap.  The address model is IPv4 only,
matching the scope of the repository (the spec declares IPv6 a non-goal
and every entry the program manipulates is IPv4 text).
-/

set_option maxRecDepth 8000

namespace ThreatList

/-- ASCII whitespace recognized by the model of strings.TrimSpace
(space, tab, newline, carriage return, vertical tab, form feed). -/
def isSpaceChar (c : Char) : Bool :=
  c = ' ' || c = '\t' || c = '\n' || c = '\r' || c = Char.ofNat 11 || c = Char.ofNat 12

/-- Model of strings.TrimSpace (restricted to ASCII whitespace). -/
def trimSpace (l : List Char) : List Char :=
  ((l.dropWhile isSpaceChar).reverse.dropWhile isSpaceChar).reverse

/-- Model of strings.Split(contents, "\n"). -/
def splitOnNl : List Char → List (List Char)
  | [] => [[]]
  | c :: rest =>
    if c = '\n' then [] :: splitOnNl rest
    else
      match splitOnNl rest with
      | [] => [[c]]
      | line :: lines => (c :: line) :: lines

/-- Split at the first occurrence of a character (model of the
strings.IndexByte split performed by net.ParseCIDR). -/
def splitFirst (sep : Char) : List Char → Option (List Char × List Char)
  | [] => none
  | c :: rest =>
    if c = sep then some ([], rest)
    else
      match splitFirst sep rest with
      | none => none
      | some (a, b) => some (c :: a, b)

/-- Model of the Go net/netip IPv4 parser used by net.ParseIP and
net.ParseCIDR in Go 1.21: exactly four dot-separated decimal fields,
each 0..255, no leading zeros, no other characters.  `fields` holds the
finished octets, `val` the running value of the current field and
`digLen` its digit count. -/
def parseIPv4Fields : List Char → List Nat → Nat → Nat → Option (Nat × Nat × Nat × Nat)
  | [], fields, val, digLen =>
    if digLen = 0 then none
    else
      match fields with
      | [a, b, c] => some (a, b, c, val)
      | _ => none
  | ch :: rest, fields, val, digLen =>
    if ch.isDigit then
      if digLen = 1 ∧ val = 0 then none
      else if val * 10 + (ch.toNat - 48) > 255 then none
      else parseIPv4Fields rest fields (val * 10 + (ch.toNat - 48)) (digLen + 1)
    else if ch = '.' then
      if digLen = 0 then none
      else if fields.length = 3 then none
      else parseIPv4Fields rest (fields ++ [val]) 0 0
    else none

/-- Model of ipv4ToUint32: the big-endian 32-bit value of four octets. -/
def ipv4ToUint32 (a b c d : Nat) : Nat :=
  a * 2 ^ 24 + b * 2 ^ 16 + c * 2 ^ 8 + d

/-- Model of net.ParseIP restricted to IPv4 text (IPv6 is outside the
address model of the repository).  Returns the 32-bit address value. -/
def parseIP (s : String) : Option Nat :=
  match parseIPv4Fields s.data [] 0 0 with
  | some (a, b, c, d) => some (ipv4ToUint32 a b c d)
  | none => none

/-- Model of Go net.dtoi applied to the text after the slash: decimal
digits accumulated with the 0xFFFFFF cutoff. -/
def dtoiLoop : List Char → Nat → Option Nat
  | [], n => some n
  | c :: rest, n =>
    if c.isDigit then
      if n * 10 + (c.toNat - 48) ≥ 0xFFFFFF then none
      else dtoiLoop rest (n * 10 + (c.toNat - 48))
    else none

/-- Model of net.ParseCIDR restricted to IPv4: split at the first slash,
parse the address part as IPv4 and the rest as a prefix length 0..32.
Returns the UNMASKED base address value (the first result of
net.ParseCIDR) and the prefix length. -/
def parseCIDR (s : String) : Option (Nat × Nat) :=
  match splitFirst '/' s.data with
  | none => none
  | some (addrPart, maskPart) =>
    match parseIPv4Fields addrPart [] 0 0 with
    | none => none
    | some (a, b, c, d) =>
      if maskPart = [] then none
      else
        match dtoiLoop maskPart 0 with
        | none => none
        | some n => if n ≤ 32 then some (ipv4ToUint32 a b c d, n) else none

/-- Mask a 32-bit value down to its network address for a prefix length
(model of net.IP.Mask with a CIDR mask: zero the low 32 - p bits). -/
def maskU32 (p v : Nat) : Nat := v / 2 ^ (32 - p) * 2 ^ (32 - p)

/-- Model of net.IPNet.Contains for the network with masked base `base`
and prefix length `p`. -/
def cidrContains (base p v : Nat) : Bool := maskU32 p v == base

/-- Model of isIPInCIDR from main.go.  The strictMode variadic flag is an
explicit Bool argument.  The branch structure mirrors the source: a
single-IP first operand is tested by Contains or Equal; a CIDR first
operand against a CIDR second operand compares textual equality, then
either strict containment (Contains of the raw base plus mask-size
comparison) or, non-strict, Contains in either direction followed by the
uint32 range-overlap test computed from the raw (unmasked) bases. -/
def isIPInCIDR (ip cidr : String) (strict : Bool) : Bool :=
  match parseIP ip with
  | some ipVal =>
    match parseCIDR cidr with
    | some (rawB, pB) => cidrContains (maskU32 pB rawB) pB ipVal
    | none =>
      match parseIP cidr with
      | some cidrVal => ipVal == cidrVal
      | none => false
  | none =>
    match parseCIDR ip with
    | none => false
    | some (rawA, pA) =>
      match parseCIDR cidr with
      | some (rawB, pB) =>
        if ip = cidr then true
        else if strict then
          cidrContains (maskU32 pB rawB) pB rawA && decide (pB ≤ pA)
        else if cidrContains (maskU32 pB rawB) pB rawA || cidrContains (maskU32 pA rawA) pA rawB then
          true
        else
          decide (rawA ≤ (rawB + 2 ^ (32 - pB) % 2 ^ 32 + (2 ^ 32 - 1)) % 2 ^ 32) &&
          decide (rawB ≤ (rawA + 2 ^ (32 - pA) % 2 ^ 32 + (2 ^ 32 - 1)) % 2 ^ 32)
      | none =>
        match parseIP cidr with
        | some cidrVal => cidrContains (maskU32 pA rawA) pA cidrVal
        | none => false

/-- Model of isIPWhitelisted: exact textual membership first, then every
whitelist entry is tested with isIPInCIDR in non-strict mode. -/
def isIPWhitelisted (ip : String) (whitelist : List String) : Bool :=
  whitelist.contains ip || whitelist.any fun cidr => isIPInCIDR ip cidr false

/-- Model of the entry filter of writeBlocklistFile: the set of blocklist
entries emitted into the generated file (the surrounding nginx template
text is fixed). -/
def writeBlocklistFile (whitelist blocklist : List String) : List String :=
  blocklist.filter fun address => !isIPWhitelisted address whitelist

/-- The (start, end) pair the overlap fallback of isIPInCIDR computes for
an entry (lines 351-356 of main.go): for a CIDR, ipv4ToUint32 of the
first (raw, unmasked) result of net.ParseCIDR and start + 2^(32-p) - 1
in wrapping uint32 arithmetic; a single IP participates as the point
range of its value. -/
def codeRange (s : String) : Option (Nat × Nat) :=
  match parseIP s with
  | some v => some (v, v)
  | none =>
    match parseCIDR s with
    | some (raw, p) => some (raw, (raw + 2 ^ (32 - p) % 2 ^ 32 + (2 ^ 32 - 1)) % 2 ^ 32)
    | none => none

/-- Modelled from the spec: `toRange(entry)` with the base masked to the
network address, endInt = startInt + 2^(32-prefixLen) - 1 (section 4.1 of
the spec); used to compare the range semantics of the spec against the
range the code computes. -/
def specToRange (s : String) : Option (Nat × Nat) :=
  match parseIP s with
  | some v => some (v, v)
  | none =>
    match parseCIDR s with
    | some (raw, p) => some (maskU32 p raw, maskU32 p raw + (2 ^ (32 - p) - 1))
    | none => none

/-- An entry is canonical when its CIDR base is already the network
address (host bits zero); single IPs and unparseable text are trivially
canonical. -/
def canonicalEntry (s : String) : Bool :=
  match parseCIDR s with
  | some (raw, p) => maskU32 p raw == raw
  | none => true

/-- Longest leading digit run of the regex token scanner. -/
def digitRun (l : List Char) : List Char := l.takeWhile Char.isDigit

/-- Match one `\d{1,3}\.` group of the extraction regex at the head of
the input: a run of one to three digits followed by a literal dot.  A
longer digit run cannot match (every shorter split leaves a digit where
the dot must be), so the group is deterministic. -/
def matchOctetDot (l : List Char) : Option (List Char × List Char) :=
  if 1 ≤ (digitRun l).length ∧ (digitRun l).length ≤ 3 then
    match l.dropWhile Char.isDigit with
    | '.' :: rest => some (digitRun l ++ ['.'], rest)
    | _ => none
  else none

/-- Match the final `\d{1,3}` of the extraction regex: greedily up to
three leading digits. -/
def matchLastOctet (l : List Char) : Option (List Char × List Char) :=
  if (digitRun l).length = 0 then none
  else some ((digitRun l).take (min 3 (digitRun l).length),
    (digitRun l).drop (min 3 (digitRun l).length) ++ l.dropWhile Char.isDigit)

/-- Match the optional `(?:/\d{1,2})?` suffix greedily: a slash followed
by one or two digits when present, nothing otherwise. -/
def matchSlashPart (l : List Char) : List Char × List Char :=
  match l with
  | '/' :: rest =>
    if (digitRun rest).length = 0 then ([], l)
    else ('/' :: (digitRun rest).take (min 2 (digitRun rest).length),
      (digitRun rest).drop (min 2 (digitRun rest).length) ++ rest.dropWhile Char.isDigit)
  | _ => ([], l)

/-- Leftmost-first match of the whole token pattern
`(?:\d{1,3}\.){3}\d{1,3}(?:/\d{1,2})?` anchored at the head of the
input, returning the matched text and the remaining suffix. -/
def matchTokenAt (l : List Char) : Option (List Char × List Char) :=
  match matchOctetDot l with
  | none => none
  | some (m1, r1) =>
    match matchOctetDot r1 with
    | none => none
    | some (m2, r2) =>
      match matchOctetDot r2 with
      | none => none
      | some (m3, r3) =>
        match matchLastOctet r3 with
        | none => none
        | some (m4, r4) =>
          some (m1 ++ m2 ++ m3 ++ m4 ++ (matchSlashPart r4).1, (matchSlashPart r4).2)

/-- Leftmost match of the token pattern anywhere in the input (model of
Regexp.FindString), with the suffix following the match. -/
def findFirstAux : List Char → Option (List Char × List Char)
  | [] => none
  | c :: rest =>
    match matchTokenAt (c :: rest) with
    | some (m, r) => some (m, r)
    | none => findFirstAux rest

/-- Successive non-overlapping leftmost matches (model of
Regexp.FindAllString), fueled; every match consumes at least one
character, so fuel `l.length + 1` never runs out. -/
def findAllFuel : Nat → List Char → List (List Char)
  | 0, _ => []
  | fuel + 1, l =>
    match findFirstAux l with
    | none => []
    | some (m, r) => m :: findAllFuel fuel r

/-- All matches of the token pattern in the input, left to right. -/
def findAllAux (l : List Char) : List (List Char) :=
  findAllFuel (l.length + 1) l

/-- Model of the whole-line test of parseIPAddresses:
ipRegex.MatchString(line) with the leftmost match spanning the entire
line. -/
def wholeLineToken (l : List Char) : Bool :=
  match findFirstAux l with
  | some (m, _) => m.length == l.length
  | none => false

/-- Per-line extraction of parseIPAddresses: trim, skip comment and
blank lines, take the whole line when it is exactly one token, otherwise
take every regex match in the line. -/
def lineEntries (line : List Char) : List (List Char) :=
  let t := trimSpace line
  if t.head? = some '#' ∨ t = [] then []
  else if wholeLineToken t then [t]
  else findAllAux t

/-- All tokens contributed by all lines, before set-deduplication. -/
def tokensOf (contents : String) : List String :=
  ((splitOnNl contents.data).flatMap lineEntries).map fun l => String.mk l

/-- Model of parseIPAddresses: the set of distinct extracted tokens (the
Go map keyed by the token text, as a deduplicated list). -/
def parseIPAddresses (contents : String) : List String :=
  (tokensOf contents).dedup

/-! Helper lemmas about the parsers. -/

theorem parseIPv4Fields_no_slash :
    ∀ (l : List Char) (fields : List Nat) (val digLen : Nat) (r : Nat × Nat × Nat × Nat),
      parseIPv4Fields l fields val digLen = some r → '/' ∉ l := by
  intro l
  induction l with
  | nil => intro fields val digLen r _; simp
  | cons ch rest ih =>
    intro fields val digLen r h
    unfold parseIPv4Fields at h
    by_cases hd : ch.isDigit
    · rw [if_pos hd] at h
      by_cases h1 : digLen = 1 ∧ val = 0
      · rw [if_pos h1] at h; exact absurd h (by simp)
      · rw [if_neg h1] at h
        by_cases h2 : val * 10 + (ch.toNat - 48) > 255
        · rw [if_pos h2] at h; exact absurd h (by simp)
        · rw [if_neg h2] at h
          intro hmem
          rcases List.mem_cons.mp hmem with hc | hc
          · rw [← hc] at hd; exact absurd hd (by decide)
          · exact ih _ _ _ _ h hc
    · rw [if_neg hd] at h
      by_cases hdot : ch = '.'
      · rw [if_pos hdot] at h
        by_cases h1 : digLen = 0
        · rw [if_pos h1] at h; exact absurd h (by simp)
        · rw [if_neg h1] at h
          by_cases h2 : fields.length = 3
          · rw [if_pos h2] at h; exact absurd h (by simp)
          · rw [if_neg h2] at h
            intro hmem
            rcases List.mem_cons.mp hmem with hc | hc
            · rw [hdot] at hc; exact absurd hc (by decide)
            · exact ih _ _ _ _ h hc
      · rw [if_neg hdot] at h; exact absurd h (by simp)

theorem splitFirst_some_mem {sep : Char} :
    ∀ (l a b : List Char), splitFirst sep l = some (a, b) → sep ∈ l := by
  intro l
  induction l with
  | nil => intro a b h; exact absurd h (by simp [splitFirst])
  | cons c rest ih =>
    intro a b h
    unfold splitFirst at h
    by_cases hc : c = sep
    · rw [hc]; exact List.mem_cons_self _ _
    · simp only [hc, if_false] at h
      match hsp : splitFirst sep rest with
      | none => rw [hsp] at h; exact absurd h (by simp)
      | some (a0, b0) =>
        rw [hsp] at h
        exact List.mem_cons_of_mem _ (ih a0 b0 hsp)

theorem parseCIDR_eq_none_of_parseIP {s : String} {v : Nat}
    (h : parseIP s = some v) : parseCIDR s = none := by
  unfold parseIP at h
  have hns : '/' ∉ s.data := by
    split at h
    · rename_i a b c d hf
      exact parseIPv4Fields_no_slash _ _ _ _ _ hf
    · exact absurd h (by simp)
  unfold parseCIDR
  split
  · rfl
  · rename_i addrPart maskPart hsp
    exact absurd (splitFirst_some_mem _ _ _ hsp) hns

theorem parseIP_eq_none_of_parseCIDR {s : String} {r : Nat × Nat}
    (h : parseCIDR s = some r) : parseIP s = none := by
  cases hip : parseIP s with
  | none => rfl
  | some v => rw [parseCIDR_eq_none_of_parseIP hip] at h; exact absurd h (by simp)

theorem ipv4ToUint32_lt {a b c d : Nat}
    (ha : a ≤ 255) (hb : b ≤ 255) (hc : c ≤ 255) (hd : d ≤ 255) :
    ipv4ToUint32 a b c d < 2 ^ 32 := by
  unfold ipv4ToUint32
  have h24 : (2 : Nat) ^ 24 = 16777216 := by norm_num
  have h16 : (2 : Nat) ^ 16 = 65536 := by norm_num
  have h8 : (2 : Nat) ^ 8 = 256 := by norm_num
  have h32 : (2 : Nat) ^ 32 = 4294967296 := by norm_num
  rw [h24, h16, h8, h32]
  omega

theorem parseIPv4Fields_octets :
    ∀ (l : List Char) (fields : List Nat) (val digLen : Nat) (a b c d : Nat),
      (∀ x ∈ fields, x ≤ 255) → val ≤ 255 →
      parseIPv4Fields l fields val digLen = some (a, b, c, d) →
      a ≤ 255 ∧ b ≤ 255 ∧ c ≤ 255 ∧ d ≤ 255 := by
  intro l
  induction l with
  | nil =>
    intro fields val digLen a b c d hfields hval h
    unfold parseIPv4Fields at h
    by_cases h0 : digLen = 0
    · rw [if_pos h0] at h; exact absurd h (by simp)
    · rw [if_neg h0] at h
      rcases fields with _ | ⟨x, _ | ⟨y, _ | ⟨z, _ | ⟨w, t⟩⟩⟩⟩
      · exact absurd h (by simp)
      · exact absurd h (by simp)
      · exact absurd h (by simp)
      · simp only [Option.some.injEq, Prod.mk.injEq] at h
        obtain ⟨h1, h2, h3, h4⟩ := h
        subst h1; subst h2; subst h3; subst h4
        exact ⟨hfields _ (by simp), hfields _ (by simp), hfields _ (by simp), hval⟩
      · exact absurd h (by simp)
  | cons ch rest ih =>
    intro fields val digLen a b c d hfields hval h
    unfold parseIPv4Fields at h
    by_cases hdig : ch.isDigit
    · rw [if_pos hdig] at h
      by_cases h1 : digLen = 1 ∧ val = 0
      · rw [if_pos h1] at h; exact absurd h (by simp)
      · rw [if_neg h1] at h
        by_cases h2 : val * 10 + (ch.toNat - 48) > 255
        · rw [if_pos h2] at h; exact absurd h (by simp)
        · rw [if_neg h2] at h
          exact ih _ _ _ a b c d hfields (by omega) h
    · rw [if_neg hdig] at h
      by_cases hdot : ch = '.'
      · rw [if_pos hdot] at h
        by_cases h1 : digLen = 0
        · rw [if_pos h1] at h; exact absurd h (by simp)
        · rw [if_neg h1] at h
          by_cases h2 : fields.length = 3
          · rw [if_pos h2] at h; exact absurd h (by simp)
          · rw [if_neg h2] at h
            refine ih _ _ _ a b c d ?_ (by omega) h
            intro x hx
            rcases List.mem_append.mp hx with hx | hx
            · exact hfields _ hx
            · rw [List.mem_singleton.mp hx]; exact hval
      · rw [if_neg hdot] at h; exact absurd h (by simp)

theorem parseIP_lt {s : String} {v : Nat} (h : parseIP s = some v) : v < 2 ^ 32 := by
  unfold parseIP at h
  split at h
  · rename_i a b c d hf
    simp only [Option.some.injEq] at h
    obtain ⟨ha, hb, hc, hd⟩ := parseIPv4Fields_octets _ _ _ _ a b c d (by simp) (by omega) hf
    rw [← h]
    exact ipv4ToUint32_lt ha hb hc hd
  · exact absurd h (by simp)

theorem parseCIDR_bounds {s : String} {raw p : Nat}
    (h : parseCIDR s = some (raw, p)) : raw < 2 ^ 32 ∧ p ≤ 32 := by
  unfold parseCIDR at h
  split at h
  · exact absurd h (by simp)
  · rename_i addrPart maskPart hsp
    split at h
    · exact absurd h (by simp)
    · rename_i a b c d hf
      split at h
      · exact absurd h (by simp)
      · split at h
        · exact absurd h (by simp)
        · rename_i n hdt
          split at h
          · rename_i hle
            simp only [Option.some.injEq, Prod.mk.injEq] at h
            obtain ⟨h1, h2⟩ := h
            obtain ⟨ha, hb, hc, hd⟩ :=
              parseIPv4Fields_octets _ _ _ _ a b c d (by simp) (by omega) hf
            subst h2
            exact ⟨h1 ▸ ipv4ToUint32_lt ha hb hc hd, hle⟩
          · exact absurd h (by simp)

/-! Helper lemmas about 32-bit masking arithmetic. -/

theorem maskU32_le (p v : Nat) : maskU32 p v ≤ v :=
  Nat.div_mul_le_self v _

theorem lt_maskU32_add (p v : Nat) : v < maskU32 p v + 2 ^ (32 - p) := by
  have hs : 0 < 2 ^ (32 - p) := Nat.pos_pow_of_pos _ (by norm_num)
  have h1 : v / 2 ^ (32 - p) * 2 ^ (32 - p) + v % 2 ^ (32 - p) = v := Nat.div_add_mod' v _
  have h2 : v % 2 ^ (32 - p) < 2 ^ (32 - p) := Nat.mod_lt _ hs
  unfold maskU32
  omega

theorem maskU32_idem (p v : Nat) : maskU32 p (maskU32 p v) = maskU32 p v := by
  unfold maskU32
  rw [Nat.mul_div_cancel _ (Nat.pos_pow_of_pos _ (by norm_num))]

theorem pow_dvd_maskU32 (p v : Nat) : 2 ^ (32 - p) ∣ maskU32 p v :=
  Dvd.intro_left _ rfl

theorem maskU32_eq_iff {p b : Nat} (hb : maskU32 p b = b) (v : Nat) :
    maskU32 p v = b ↔ b ≤ v ∧ v < b + 2 ^ (32 - p) := by
  constructor
  · intro h
    exact ⟨h ▸ maskU32_le p v, h ▸ lt_maskU32_add p v⟩
  · rintro ⟨h1, h2⟩
    have hs : 0 < 2 ^ (32 - p) := Nat.pos_pow_of_pos _ (by norm_num)
    have hb2 : b / 2 ^ (32 - p) * 2 ^ (32 - p) = b := hb
    have hq : v / 2 ^ (32 - p) = b / 2 ^ (32 - p) := by
      apply Nat.div_eq_of_lt_le
      · calc b / 2 ^ (32 - p) * 2 ^ (32 - p) = b := hb2
        _ ≤ v := h1
      · rw [Nat.succ_mul]
        calc v < b + 2 ^ (32 - p) := h2
        _ = b / 2 ^ (32 - p) * 2 ^ (32 - p) + 2 ^ (32 - p) := by rw [hb2]
    unfold maskU32
    rw [hq]
    exact hb2

theorem align_step_le {a b d : Nat} (h : a < b) (ha : d ∣ a) (hb : d ∣ b) :
    a + d ≤ b := by
  have h1 : d ∣ b - a := Nat.dvd_sub' hb ha
  have h2 : 0 < b - a := by omega
  have h3 : d ≤ b - a := Nat.le_of_dvd h2 h1
  omega

theorem cidrContains_iff (p raw v : Nat) :
    cidrContains (maskU32 p raw) p v = true ↔
      maskU32 p raw ≤ v ∧ v < maskU32 p raw + 2 ^ (32 - p) := by
  unfold cidrContains
  rw [beq_iff_eq]
  exact maskU32_eq_iff (maskU32_idem p raw) v

theorem wrapEnd_eq {p raw : Nat} (hp : p ≤ 32) (hraw : raw < 2 ^ 32)
    (hc : maskU32 p raw = raw) :
    (raw + 2 ^ (32 - p) % 2 ^ 32 + (2 ^ 32 - 1)) % 2 ^ 32 = raw + (2 ^ (32 - p) - 1) := by
  have hc2 : raw / 2 ^ (32 - p) * 2 ^ (32 - p) = raw := hc
  by_cases h0 : p = 0
  · subst h0
    have hz : raw = 0 := by
      have hdiv : raw / 2 ^ (32 - 0) = 0 := Nat.div_eq_of_lt (by simpa using hraw)
      rw [hdiv] at hc2
      simpa using hc2.symm
    subst hz
    simp only [Nat.sub_zero, Nat.mod_self, Nat.zero_add]
    exact Nat.mod_eq_of_lt (by norm_num)
  · have hslt : 2 ^ (32 - p) < 2 ^ 32 := by
      have hlt : 32 - p < 32 := by omega
      exact Nat.pow_lt_pow_right (by norm_num) hlt
    have hmod : 2 ^ (32 - p) % 2 ^ 32 = 2 ^ (32 - p) := Nat.mod_eq_of_lt hslt
    have hs1 : 0 < 2 ^ (32 - p) := pow_pos (by norm_num) _
    have hsplit : (2 : Nat) ^ 32 = 2 ^ p * 2 ^ (32 - p) := by
      rw [← pow_add]
      congr 1
      omega
    have hle : raw + 2 ^ (32 - p) ≤ 2 ^ 32 := by
      have hraw2 : raw / 2 ^ (32 - p) * 2 ^ (32 - p) < 2 ^ p * 2 ^ (32 - p) := by
        rw [← hsplit, hc2]
        exact hraw
      have hq : raw / 2 ^ (32 - p) < 2 ^ p :=
        lt_of_mul_lt_mul_right hraw2 (Nat.zero_le _)
      calc raw + 2 ^ (32 - p) = raw / 2 ^ (32 - p) * 2 ^ (32 - p) + 2 ^ (32 - p) := by
            rw [hc2]
        _ = (raw / 2 ^ (32 - p) + 1) * 2 ^ (32 - p) := by rw [Nat.succ_mul]
        _ ≤ 2 ^ p * 2 ^ (32 - p) := Nat.mul_le_mul_right _ (by omega)
        _ = 2 ^ 32 := hsplit.symm
    rw [hmod]
    have heq : raw + 2 ^ (32 - p) + (2 ^ 32 - 1) = raw + 2 ^ (32 - p) - 1 + 2 ^ 32 := by
      omega
    rw [heq, Nat.add_mod_right, Nat.mod_eq_of_lt (by omega)]
    omega

/-! Shape-case evaluation lemmas for isIPInCIDR. -/

theorem isIPInCIDR_ip_ip {a b : String} {va vb : Nat} (m : Bool)
    (ha : parseIP a = some va) (hb : parseIP b = some vb) :
    isIPInCIDR a b m = (va == vb) := by
  unfold isIPInCIDR
  rw [ha, parseCIDR_eq_none_of_parseIP hb, hb]

theorem isIPInCIDR_ip_cidr {a b : String} {va rawB pB : Nat} (m : Bool)
    (ha : parseIP a = some va) (hb : parseCIDR b = some (rawB, pB)) :
    isIPInCIDR a b m = cidrContains (maskU32 pB rawB) pB va := by
  unfold isIPInCIDR
  rw [ha, hb]

theorem isIPInCIDR_cidr_ip {a b : String} {rawA pA vb : Nat} (m : Bool)
    (ha : parseCIDR a = some (rawA, pA)) (hb : parseIP b = some vb) :
    isIPInCIDR a b m = cidrContains (maskU32 pA rawA) pA vb := by
  unfold isIPInCIDR
  rw [parseIP_eq_none_of_parseCIDR ha, ha, parseCIDR_eq_none_of_parseIP hb, hb]

theorem isIPInCIDR_none {a b : String} (m : Bool)
    (h : parseIP a = none ∧ parseCIDR a = none ∨ parseIP b = none ∧ parseCIDR b = none) :
    isIPInCIDR a b m = false := by
  unfold isIPInCIDR
  rcases h with ⟨h1, h2⟩ | ⟨h1, h2⟩
  · rw [h1, h2]
  · cases hia : parseIP a with
    | some va => rw [h2, h1]
    | none =>
      cases hca : parseCIDR a with
      | none => rfl
      | some r =>
        obtain ⟨rawA, pA⟩ := r
        rw [h2, h1]

theorem isIPInCIDR_cidr_cidr_self {a : String} {rawA pA : Nat}
    (ha : parseCIDR a = some (rawA, pA)) (m : Bool) :
    isIPInCIDR a a m = true := by
  unfold isIPInCIDR
  rw [parseIP_eq_none_of_parseCIDR ha, ha]
  simp

theorem isIPInCIDR_cidr_cidr_strict {a b : String} {rawA pA rawB pB : Nat}
    (ha : parseCIDR a = some (rawA, pA)) (hb : parseCIDR b = some (rawB, pB))
    (hne : a ≠ b) :
    isIPInCIDR a b true =
      (cidrContains (maskU32 pB rawB) pB rawA && decide (pB ≤ pA)) := by
  unfold isIPInCIDR
  rw [parseIP_eq_none_of_parseCIDR ha, ha, hb]
  simp [hne]

theorem isIPInCIDR_cidr_cidr_overlap {a b : String} {rawA pA rawB pB : Nat}
    (ha : parseCIDR a = some (rawA, pA)) (hb : parseCIDR b = some (rawB, pB))
    (hne : a ≠ b) :
    isIPInCIDR a b false =
      ((cidrContains (maskU32 pB rawB) pB rawA || cidrContains (maskU32 pA rawA) pA rawB) ||
        (decide (rawA ≤ (rawB + 2 ^ (32 - pB) % 2 ^ 32 + (2 ^ 32 - 1)) % 2 ^ 32) &&
          decide (rawB ≤ (rawA + 2 ^ (32 - pA) % 2 ^ 32 + (2 ^ 32 - 1)) % 2 ^ 32))) := by
  unfold isIPInCIDR
  rw [parseIP_eq_none_of_parseCIDR ha, ha, hb]
  cases hc : (cidrContains (maskU32 pB rawB) pB rawA || cidrContains (maskU32 pA rawA) pA rawB) with
  | true =>
    rcases Bool.or_eq_true_iff.mp hc with h | h <;> simp [hne, h]
  | false =>
    have h1 : cidrContains (maskU32 pB rawB) pB rawA = false := by
      cases hx : cidrContains (maskU32 pB rawB) pB rawA
      · rfl
      · rw [hx] at hc; simp at hc
    have h2 : cidrContains (maskU32 pA rawA) pA rawB = false := by
      cases hx : cidrContains (maskU32 pA rawA) pA rawB
      · rfl
      · rw [hx] at hc; simp at hc
    simp [hne, h1, h2]

/-! Helper lemmas about the whitelist filter. -/

theorem isIPWhitelisted_iff (ip : String) (wl : List String) :
    isIPWhitelisted ip wl = true ↔ ip ∈ wl ∨ ∃ c ∈ wl, isIPInCIDR ip c false = true := by
  unfold isIPWhitelisted
  rw [Bool.or_eq_true]
  constructor
  · rintro (h | h)
    · exact Or.inl (by simpa using h)
    · exact Or.inr (by simpa using List.any_eq_true.mp h)
  · rintro (h | h)
    · exact Or.inl (by simpa using h)
    · exact Or.inr (List.any_eq_true.mpr (by simpa using h))

theorem isIPWhitelisted_malformed {b : String} {wl : List String}
    (h1 : parseIP b = none) (h2 : parseCIDR b = none) (h3 : b ∉ wl) :
    isIPWhitelisted b wl = false := by
  cases hw : isIPWhitelisted b wl with
  | false => rfl
  | true =>
    rcases (isIPWhitelisted_iff b wl).mp hw with h | ⟨c, _, hc⟩
    · exact absurd h h3
    · rw [isIPInCIDR_none false (Or.inl ⟨h1, h2⟩)] at hc
      exact absurd hc (by simp)

/-! Helper lemmas about the range views of an entry. -/

theorem specToRange_ip {s : String} {va : Nat} (h : parseIP s = some va) :
    specToRange s = some (va, va) := by
  unfold specToRange
  rw [h]

theorem specToRange_cidr {s : String} {raw p : Nat} (h : parseCIDR s = some (raw, p)) :
    specToRange s =
      some (maskU32 p raw, maskU32 p raw + (2 ^ (32 - p) - 1)) := by
  unfold specToRange
  rw [parseIP_eq_none_of_parseCIDR h, h]

theorem specToRange_none {s : String} (h1 : parseIP s = none) (h2 : parseCIDR s = none) :
    specToRange s = none := by
  unfold specToRange
  rw [h1, h2]

theorem canonicalEntry_cidr {s : String} {raw p : Nat}
    (hc : parseCIDR s = some (raw, p)) (h : canonicalEntry s = true) :
    maskU32 p raw = raw := by
  unfold canonicalEntry at h
  rw [hc] at h
  simpa using h

theorem strict_range_iff {rawA pA rawB pB : Nat} (hpA : pA ≤ 32) (hpB : pB ≤ 32) :
    (cidrContains (maskU32 pB rawB) pB rawA = true ∧ pB ≤ pA) ↔
      (maskU32 pB rawB ≤ maskU32 pA rawA ∧
        maskU32 pA rawA + (2 ^ (32 - pA) - 1) ≤ maskU32 pB rawB + (2 ^ (32 - pB) - 1)) := by
  have hsA : 0 < 2 ^ (32 - pA) := pow_pos (by norm_num) _
  have hsB : 0 < 2 ^ (32 - pB) := pow_pos (by norm_num) _
  constructor
  · rintro ⟨hc, hple⟩
    have hdvd : 2 ^ (32 - pA) ∣ 2 ^ (32 - pB) := pow_dvd_pow 2 (by omega)
    obtain ⟨hl, hr⟩ := (cidrContains_iff pB rawB rawA).mp hc
    have hdvdmB : 2 ^ (32 - pA) ∣ maskU32 pB rawB :=
      dvd_trans hdvd (pow_dvd_maskU32 pB rawB)
    constructor
    · have hdm : maskU32 pB rawB / 2 ^ (32 - pA) * 2 ^ (32 - pA) = maskU32 pB rawB :=
        Nat.div_mul_cancel hdvdmB
      have hdle : maskU32 pB rawB / 2 ^ (32 - pA) ≤ rawA / 2 ^ (32 - pA) :=
        Nat.div_le_div_right hl
      calc maskU32 pB rawB
          = maskU32 pB rawB / 2 ^ (32 - pA) * 2 ^ (32 - pA) := hdm.symm
        _ ≤ rawA / 2 ^ (32 - pA) * 2 ^ (32 - pA) := Nat.mul_le_mul_right _ hdle
        _ = maskU32 pA rawA := rfl
    · have hmAlt : maskU32 pA rawA < maskU32 pB rawB + 2 ^ (32 - pB) :=
        lt_of_le_of_lt (maskU32_le pA rawA) hr
      have hdvdSum : 2 ^ (32 - pA) ∣ maskU32 pB rawB + 2 ^ (32 - pB) :=
        dvd_add hdvdmB hdvd
      have hstep : maskU32 pA rawA + 2 ^ (32 - pA) ≤ maskU32 pB rawB + 2 ^ (32 - pB) :=
        align_step_le hmAlt (pow_dvd_maskU32 pA rawA) hdvdSum
      omega
  · rintro ⟨h1, h2⟩
    have hadd : maskU32 pA rawA + 2 ^ (32 - pA) ≤ maskU32 pB rawB + 2 ^ (32 - pB) := by
      omega
    have hexp : 32 - pA ≤ 32 - pB := by
      by_contra hcon
      push_neg at hcon
      have := Nat.pow_lt_pow_right (by norm_num : 1 < 2) hcon
      omega
    refine ⟨?_, by omega⟩
    rw [cidrContains_iff]
    refine ⟨le_trans h1 (maskU32_le pA rawA), ?_⟩
    calc rawA < maskU32 pA rawA + 2 ^ (32 - pA) := lt_maskU32_add pA rawA
      _ ≤ maskU32 pB rawB + 2 ^ (32 - pB) := hadd

theorem overlap_range_iff {rawA pA rawB pB : Nat}
    (hA32 : rawA < 2 ^ 32) (hB32 : rawB < 2 ^ 32) (hpA : pA ≤ 32) (hpB : pB ≤ 32)
    (hcanA : maskU32 pA rawA = rawA) (hcanB : maskU32 pB rawB = rawB) :
    ((cidrContains (maskU32 pB rawB) pB rawA || cidrContains (maskU32 pA rawA) pA rawB) ||
        (decide (rawA ≤ (rawB + 2 ^ (32 - pB) % 2 ^ 32 + (2 ^ 32 - 1)) % 2 ^ 32) &&
          decide (rawB ≤ (rawA + 2 ^ (32 - pA) % 2 ^ 32 + (2 ^ 32 - 1)) % 2 ^ 32))) = true ↔
      (rawA ≤ rawB + (2 ^ (32 - pB) - 1) ∧ rawB ≤ rawA + (2 ^ (32 - pA) - 1)) := by
  rw [wrapEnd_eq hpB hB32 hcanB, wrapEnd_eq hpA hA32 hcanA]
  have hsA : 0 < 2 ^ (32 - pA) := pow_pos (by norm_num) _
  have hsB : 0 < 2 ^ (32 - pB) := pow_pos (by norm_num) _
  constructor
  · intro h
    rcases Bool.or_eq_true_iff.mp h with h | h
    · rcases Bool.or_eq_true_iff.mp h with h | h
      · have hm := (cidrContains_iff pB rawB rawA).mp h
        omega
      · have hm := (cidrContains_iff pA rawA rawB).mp h
        omega
    · rw [Bool.and_eq_true, decide_eq_true_iff, decide_eq_true_iff] at h
      exact h
  · intro h
    apply Bool.or_eq_true_iff.mpr
    right
    rw [Bool.and_eq_true, decide_eq_true_iff, decide_eq_true_iff]
    exact h

/-! Claim theorems. -/

/-- Claim C2 counterexample: under strict mode a CIDR first operand
against a single-IP second operand ignores the strict flag; the CIDR
10.0.0.0/24 is reported covered by the single address 10.0.0.5 even
though the range of the CIDR is not inside the point range, so a larger
range is covered by a smaller one in the CIDR-vs-IP shape. -/
theorem strictCidrVsIpCounterexample :
    isIPInCIDR "10.0.0.0/24" "10.0.0.5" true = true ∧
    specToRange "10.0.0.0/24" = some (167772160, 167772415) ∧
    specToRange "10.0.0.5" = some (167772165, 167772165) ∧
    ¬(167772165 ≤ 167772160 ∧ 167772415 ≤ 167772165) := by decide

/-- Claim C2 (amended): under strict mode, for parseable operands in the
IP-vs-IP, IP-vs-CIDR and CIDR-vs-CIDR shapes, A is covered by B iff the
masked range of A lies inside the masked range of B
(B.start <= A.start and A.end <= B.end); in the CIDR-vs-IP shape the
strict flag is ignored and A is covered by B iff the address B lies
inside the masked range of A. -/
theorem strictContainmentCharacterization :
    (∀ (a b : String) (ra rb : Nat × Nat),
        specToRange a = some ra → specToRange b = some rb →
        parseCIDR a = none ∨ parseIP b = none →
        (isIPInCIDR a b true = true ↔ rb.1 ≤ ra.1 ∧ ra.2 ≤ rb.2)) ∧
    (∀ (a b : String) (rawA pA vb : Nat),
        parseCIDR a = some (rawA, pA) → parseIP b = some vb →
        (isIPInCIDR a b true = true ↔
          maskU32 pA rawA ≤ vb ∧ vb ≤ maskU32 pA rawA + (2 ^ (32 - pA) - 1))) := by
  constructor
  · intro a b ra rb hra hrb hshape
    cases hia : parseIP a with
    | some va =>
      rw [specToRange_ip hia] at hra
      obtain rfl : (va, va) = ra := Option.some.inj hra
      cases hib : parseIP b with
      | some vb =>
        rw [specToRange_ip hib] at hrb
        obtain rfl : (vb, vb) = rb := Option.some.inj hrb
        rw [isIPInCIDR_ip_ip true hia hib, beq_iff_eq]
        omega
      | none =>
        cases hcb : parseCIDR b with
        | none => rw [specToRange_none hib hcb] at hrb; exact absurd hrb (by simp)
        | some rbp =>
          obtain ⟨rawB, pB⟩ := rbp
          rw [specToRange_cidr hcb] at hrb
          obtain rfl := Option.some.inj hrb
          have hsB : 0 < 2 ^ (32 - pB) := pow_pos (by norm_num) _
          rw [isIPInCIDR_ip_cidr true hia hcb, cidrContains_iff]
          omega
    | none =>
      cases hca : parseCIDR a with
      | none => rw [specToRange_none hia hca] at hra; exact absurd hra (by simp)
      | some rap =>
        obtain ⟨rawA, pA⟩ := rap
        rw [specToRange_cidr hca] at hra
        obtain rfl := Option.some.inj hra
        rcases hshape with hbad | hb
        · rw [hca] at hbad; exact absurd hbad (by simp)
        · cases hcb : parseCIDR b with
          | none => rw [specToRange_none hb hcb] at hrb; exact absurd hrb (by simp)
          | some rbp =>
            obtain ⟨rawB, pB⟩ := rbp
            rw [specToRange_cidr hcb] at hrb
            obtain rfl := Option.some.inj hrb
            by_cases hab : a = b
            · subst hab
              have hinj := Option.some.inj (hca.symm.trans hcb)
              obtain ⟨rfl, rfl⟩ : rawA = rawB ∧ pA = pB := by
                simpa using hinj
              rw [isIPInCIDR_cidr_cidr_self hca true]
              simp
            · rw [isIPInCIDR_cidr_cidr_strict hca hcb hab, Bool.and_eq_true,
                decide_eq_true_iff]
              exact strict_range_iff (parseCIDR_bounds hca).2 (parseCIDR_bounds hcb).2
  · intro a b rawA pA vb hca hib
    have hsA : 0 < 2 ^ (32 - pA) := pow_pos (by norm_num) _
    rw [isIPInCIDR_cidr_ip true hca hib, cidrContains_iff]
    omega

/-- Claim C2 witness: the strict CIDR-vs-CIDR containment of
216.144.248.16/28 in 216.144.248.0/24, stated through the range view. -/
theorem strictContainmentCharacterization_witness :
    isIPInCIDR "216.144.248.16/28" "216.144.248.0/24" true = true ↔
      (3633379328 ≤ 3633379344 ∧ 3633379359 ≤ 3633379583) :=
  strictContainmentCharacterization.1 "216.144.248.16/28" "216.144.248.0/24"
    (3633379344, 3633379359) (3633379328, 3633379583)
    (by decide) (by decide) (Or.inr (by decide))

/-- Claim C3 counterexample: the overlap fallback computes ranges from
the raw (unmasked) CIDR base, so 10.0.0.255/24 is reported as
overlapping 10.0.1.0/24 although the masked integer ranges of the two
entries are disjoint; the claimed iff fails at this pair. -/
theorem overlapUnmaskedBaseCounterexample :
    isIPInCIDR "10.0.0.255/24" "10.0.1.0/24" false = true ∧
    specToRange "10.0.0.255/24" = some (167772160, 167772415) ∧
    specToRange "10.0.1.0/24" = some (167772416, 167772671) ∧
    ¬(167772160 ≤ 167772671 ∧ 167772416 ≤ 167772415) := by decide

/-- Claim C3 (amended): under the overlap policy, for parseable entries
whose CIDR bases are network addresses (host bits zero), A is covered by
B iff their integer ranges intersect (A.start <= B.end and
B.start <= A.end); suppression by the filter is all-or-nothing (every
emitted entry is an unchanged member of the blocklist); 192.168.0.0/16
suppresses 192.168.1.0/24 entirely; 216.144.248.28 is covered by
216.144.248.16/28 and 216.144.248.32 is not. -/
theorem overlapCharacterization :
    (∀ (a b : String) (ra rb : Nat × Nat),
        specToRange a = some ra → specToRange b = some rb →
        canonicalEntry a = true → canonicalEntry b = true →
        (isIPInCIDR a b false = true ↔ ra.1 ≤ rb.2 ∧ rb.1 ≤ ra.2)) ∧
    (∀ (wl bl : List String) (x : String), x ∈ writeBlocklistFile wl bl → x ∈ bl) ∧
    writeBlocklistFile ["192.168.0.0/16"] ["192.168.1.0/24"] = [] ∧
    isIPInCIDR "216.144.248.28" "216.144.248.16/28" false = true ∧
    isIPInCIDR "216.144.248.32" "216.144.248.16/28" false = false := by
  refine ⟨?_, ?_, by decide, by decide, by decide⟩
  · intro a b ra rb hra hrb hcana hcanb
    cases hia : parseIP a with
    | some va =>
      rw [specToRange_ip hia] at hra
      obtain rfl : (va, va) = ra := Option.some.inj hra
      cases hib : parseIP b with
      | some vb =>
        rw [specToRange_ip hib] at hrb
        obtain rfl : (vb, vb) = rb := Option.some.inj hrb
        rw [isIPInCIDR_ip_ip false hia hib, beq_iff_eq]
        omega
      | none =>
        cases hcb : parseCIDR b with
        | none => rw [specToRange_none hib hcb] at hrb; exact absurd hrb (by simp)
        | some rbp =>
          obtain ⟨rawB, pB⟩ := rbp
          rw [specToRange_cidr hcb] at hrb
          obtain rfl := Option.some.inj hrb
          have hsB : 0 < 2 ^ (32 - pB) := pow_pos (by norm_num) _
          rw [isIPInCIDR_ip_cidr false hia hcb, cidrContains_iff]
          omega
    | none =>
      cases hca : parseCIDR a with
      | none => rw [specToRange_none hia hca] at hra; exact absurd hra (by simp)
      | some rap =>
        obtain ⟨rawA, pA⟩ := rap
        rw [specToRange_cidr hca] at hra
        obtain rfl := Option.some.inj hra
        have hsA : 0 < 2 ^ (32 - pA) := pow_pos (by norm_num) _
        have hcanA := canonicalEntry_cidr hca hcana
        cases hib : parseIP b with
        | some vb =>
          rw [specToRange_ip hib] at hrb
          obtain rfl : (vb, vb) = rb := Option.some.inj hrb
          rw [isIPInCIDR_cidr_ip false hca hib, cidrContains_iff]
          omega
        | none =>
          cases hcb : parseCIDR b with
          | none => rw [specToRange_none hib hcb] at hrb; exact absurd hrb (by simp)
          | some rbp =>
            obtain ⟨rawB, pB⟩ := rbp
            rw [specToRange_cidr hcb] at hrb
            obtain rfl := Option.some.inj hrb
            have hsB : 0 < 2 ^ (32 - pB) := pow_pos (by norm_num) _
            have hcanB := canonicalEntry_cidr hcb hcanb
            by_cases hab : a = b
            · subst hab
              have hinj := Option.some.inj (hca.symm.trans hcb)
              obtain ⟨rfl, rfl⟩ : rawA = rawB ∧ pA = pB := by simpa using hinj
              rw [isIPInCIDR_cidr_cidr_self hca false]
              constructor
              · intro _
                constructor <;> omega
              · intro _
                rfl
            · rw [isIPInCIDR_cidr_cidr_overlap hca hcb hab,
                overlap_range_iff (parseCIDR_bounds hca).1 (parseCIDR_bounds hcb).1
                  (parseCIDR_bounds hca).2 (parseCIDR_bounds hcb).2 hcanA hcanB,
                hcanA, hcanB]
  · intro wl bl x h
    unfold writeBlocklistFile at h
    exact (List.mem_filter.mp h).1

/-- Claim C3 witness: the covered-boundary example of the spec,
216.144.248.28 against the whitelist range 216.144.248.16/28, stated
through the range view. -/
theorem overlapCharacterization_witness :
    isIPInCIDR "216.144.248.28" "216.144.248.16/28" false = true ↔
      (3633379356 ≤ 3633379359 ∧ 3633379344 ≤ 3633379356) :=
  overlapCharacterization.1 "216.144.248.28" "216.144.248.16/28"
    (3633379356, 3633379356) (3633379344, 3633379359)
    (by decide) (by decide) (by decide) (by decide)

/-- Claim C7 counterexample: for a CIDR whose base has nonzero host
bits the code computes the range start from the raw base as written
(10.0.0.1 gives 167772161), not from the masked network address
(10.0.0.0 gives 167772160). -/
theorem rangeUnmaskedBaseCounterexample :
    codeRange "10.0.0.1/24" = some (167772161, 167772416) ∧
    specToRange "10.0.0.1/24" = some (167772160, 167772415) ∧
    (167772161 : Nat) ≠ 167772160 := by decide

/-- Claim C7 (amended): the overlap range is computed from the base
address as written; when the base is already the network address (host
bits zero) this agrees with the masked toRange of the spec; a Host has
start = end; prefix length 0 on the canonical base 0.0.0.0 denotes the
full address space; and ipv4ToUint32 is the big-endian 32-bit value. -/
theorem rangeComputationCharacterization :
    (∀ (s : String) (raw p : Nat),
        parseCIDR s = some (raw, p) → maskU32 p raw = raw →
        codeRange s = specToRange s) ∧
    (∀ (s : String) (v : Nat), parseIP s = some v → codeRange s = some (v, v)) ∧
    codeRange "0.0.0.0/0" = some (0, 2 ^ 32 - 1) ∧
    (∀ a b c d : Nat, ipv4ToUint32 a b c d = a * 2 ^ 24 + b * 2 ^ 16 + c * 2 ^ 8 + d) := by
  refine ⟨?_, ?_, by decide, fun a b c d => rfl⟩
  · intro s raw p hc hcan
    have hb := parseCIDR_bounds hc
    unfold codeRange specToRange
    rw [parseIP_eq_none_of_parseCIDR hc, hc]
    show some (raw, (raw + 2 ^ (32 - p) % 2 ^ 32 + (2 ^ 32 - 1)) % 2 ^ 32) =
      some (maskU32 p raw, maskU32 p raw + (2 ^ (32 - p) - 1))
    rw [wrapEnd_eq hb.2 hb.1 hcan, hcan]
  · intro s v hv
    unfold codeRange
    rw [hv]

/-- Claim C7 witness: on the canonical entry 10.0.0.0/24 the computed
range agrees with the masked toRange of the spec. -/
theorem rangeComputationCharacterization_witness :
    codeRange "10.0.0.0/24" = specToRange "10.0.0.0/24" :=
  rangeComputationCharacterization.1 "10.0.0.0/24" 167772160 24 (by decide) (by decide)

/-- Claim C5 counterexample: extraction is purely lexical, so the text
999.999.999.999, which is not a valid address and fails both parsers, is
nevertheless produced into the extracted set (the repository test suite
expects exactly this). -/
theorem extractionKeepsInvalidText :
    "999.999.999.999" ∈ parseIPAddresses "999.999.999.999" ∧
    parseIP "999.999.999.999" = none ∧
    parseCIDR "999.999.999.999" = none := by decide

/-- Claim C5 (amended): invalid address text fails to parse and is never
coerced into a valid entry, but extraction is lexical: every member of
the extracted set is one of the scanned tokens, and tokens that are
invalid addresses (such as 999.999.999.999) are kept; malformed octets,
an out-of-range prefix and non-4-part structure all fail to parse. -/
theorem extractionLexicalOnly :
    (∀ (contents s : String), s ∈ parseIPAddresses contents → s ∈ tokensOf contents) ∧
    parseIP "999.999.999.999" = none ∧
    parseCIDR "10.0.0.0/33" = none ∧
    parseIP "192.168.1" = none ∧
    "999.999.999.999" ∈ parseIPAddresses "999.999.999.999" := by
  refine ⟨?_, by decide, by decide, by decide, by decide⟩
  intro contents s h
  unfold parseIPAddresses at h
  exact List.mem_dedup.mp h

/-- Claim C5 witness: the invalid token extracted from the concrete
input is among the scanned tokens. -/
theorem extractionLexicalOnly_witness :
    "999.999.999.999" ∈ tokensOf "999.999.999.999" :=
  extractionLexicalOnly.1 "999.999.999.999" "999.999.999.999" (by decide)

/-- Claim C6 counterexample: a comment line is skipped entirely even
though it contains a substring matching the token pattern: the line is
not one whole token, its scan finds 1.2.3.4, yet nothing is
extracted. -/
theorem commentLineHasTokenNotExtracted :
    parseIPAddresses "# DROP 1.2.3.4" = [] ∧
    (findAllAux (trimSpace "# DROP 1.2.3.4".data)).map (fun l => String.mk l) =
      ["1.2.3.4"] ∧
    wholeLineToken (trimSpace "# DROP 1.2.3.4".data) = false := by decide

/-- Claim C6 (amended): extraction works line by line on the
newline-split input; each line is trimmed; a line whose trimmed text is
empty or begins with a hash contributes nothing; otherwise the whole
line is taken when the leftmost match spans it, and otherwise every
match of the left-to-right non-overlapping scan is taken; the result is
the set of distinct tokens. -/
theorem extractionLineCharacterization :
    (∀ (contents s : String),
        s ∈ parseIPAddresses contents ↔
          ∃ line ∈ splitOnNl contents.data,
            s ∈ (lineEntries line).map fun l => String.mk l) ∧
    (∀ contents : String, (parseIPAddresses contents).Nodup) ∧
    (∀ line : List Char,
        lineEntries line =
          if (trimSpace line).head? = some '#' ∨ trimSpace line = [] then []
          else if wholeLineToken (trimSpace line) then [trimSpace line]
          else findAllAux (trimSpace line)) := by
  refine ⟨?_, fun contents => List.nodup_dedup _, fun line => rfl⟩
  intro contents s
  unfold parseIPAddresses tokensOf
  rw [List.mem_dedup, List.mem_map]
  constructor
  · rintro ⟨l, hl, rfl⟩
    obtain ⟨line, hline, hmem⟩ := List.mem_flatMap.mp hl
    exact ⟨line, hline, List.mem_map_of_mem _ hmem⟩
  · rintro ⟨line, hline, hm⟩
    obtain ⟨l, hl, rfl⟩ := List.mem_map.mp hm
    exact ⟨l, List.mem_flatMap.mpr ⟨line, hline, hl⟩, rfl⟩

/-- Claim C10: a line whose trimmed text begins with a hash, and a
blank line, contribute no entries; in particular the concrete input made
of comment and blank lines extracts nothing even though it contains
token-shaped substrings. -/
theorem commentAndBlankLinesSkipped :
    (∀ line : List Char,
        (trimSpace line).head? = some '#' ∨ trimSpace line = [] →
        lineEntries line = []) ∧
    parseIPAddresses "# DROP 1.2.3.4\n\n# 5.6.7.8" = [] := by
  constructor
  · intro line h
    have hred : lineEntries line =
        if (trimSpace line).head? = some '#' ∨ trimSpace line = [] then []
        else if wholeLineToken (trimSpace line) then [trimSpace line]
        else findAllAux (trimSpace line) := rfl
    rw [hred, if_pos h]
  · decide

/-- Claim C10 witness: the comment line of the concrete example
contributes no entries. -/
theorem commentAndBlankLinesSkipped_witness :
    lineEntries "# DROP 1.2.3.4".data = [] :=
  commentAndBlankLinesSkipped.1 _ (Or.inl (by decide))

/-- Claim C6 witness: the line characterization instantiated at a
concrete line that extracts a token. -/
theorem extractionLineCharacterization_witness :
    "1.2.3.4" ∈ parseIPAddresses "DROP 1.2.3.4" ↔
      ∃ line ∈ splitOnNl "DROP 1.2.3.4".data,
        "1.2.3.4" ∈ (lineEntries line).map fun l => String.mk l :=
  extractionLineCharacterization.1 "DROP 1.2.3.4" "1.2.3.4"

/-! Faithfulness of the fueled token scan: every match consumes at least
one character, so the fuel `l.length + 1` used by findAllAux never runs
out and the scan models the unbounded Go loop. -/

theorem digitRun_append_dropWhile (l : List Char) :
    digitRun l ++ l.dropWhile Char.isDigit = l := by
  unfold digitRun
  exact List.takeWhile_append_dropWhile _ _

theorem matchOctetDot_append {l m r : List Char} (h : matchOctetDot l = some (m, r)) :
    l = m ++ r ∧ 0 < m.length := by
  unfold matchOctetDot at h
  split at h
  · rename_i hlen
    split at h
    · rename_i rest2 heq
      obtain ⟨h1, h2⟩ : digitRun l ++ ['.'] = m ∧ rest2 = r := by simpa using h
      subst h1; subst h2
      refine ⟨?_, by simp⟩
      rw [List.append_assoc, List.singleton_append, ← heq, digitRun_append_dropWhile]
    · exact absurd h (by simp)
  · exact absurd h (by simp)

theorem matchLastOctet_append {l m r : List Char} (h : matchLastOctet l = some (m, r)) :
    l = m ++ r ∧ 0 < m.length := by
  unfold matchLastOctet at h
  split at h
  · exact absurd h (by simp)
  · rename_i hne
    obtain ⟨h1, h2⟩ : (digitRun l).take (min 3 (digitRun l).length) = m ∧
        (digitRun l).drop (min 3 (digitRun l).length) ++ l.dropWhile Char.isDigit = r := by
      simpa using h
    subst h1; subst h2
    constructor
    · conv_rhs => rw [← List.append_assoc, List.take_append_drop]
      exact (digitRun_append_dropWhile l).symm
    · rw [List.length_take]
      omega

theorem matchSlashPart_append (l : List Char) :
    (matchSlashPart l).1 ++ (matchSlashPart l).2 = l := by
  unfold matchSlashPart
  split
  · rename_i rest
    split
    · simp
    · rename_i hne
      simp only [List.cons_append, List.cons.injEq, true_and]
      rw [← List.append_assoc, List.take_append_drop]
      exact digitRun_append_dropWhile rest
  · simp

theorem matchTokenAt_append {l m r : List Char} (h : matchTokenAt l = some (m, r)) :
    l = m ++ r ∧ 0 < m.length := by
  unfold matchTokenAt at h
  split at h
  · exact absurd h (by simp)
  · rename_i m1 r1 h1
    split at h
    · exact absurd h (by simp)
    · rename_i m2 r2 h2
      split at h
      · exact absurd h (by simp)
      · rename_i m3 r3 h3
        split at h
        · exact absurd h (by simp)
        · rename_i m4 r4 h4
          obtain ⟨hm, hr⟩ : m1 ++ m2 ++ m3 ++ m4 ++ (matchSlashPart r4).1 = m ∧
              (matchSlashPart r4).2 = r := by simpa using h
          obtain ⟨he1, hp1⟩ := matchOctetDot_append h1
          obtain ⟨he2, _⟩ := matchOctetDot_append h2
          obtain ⟨he3, _⟩ := matchOctetDot_append h3
          obtain ⟨he4, _⟩ := matchLastOctet_append h4
          constructor
          · rw [← hm, ← hr, he1, he2, he3, he4]
            conv_lhs => rw [← matchSlashPart_append r4]
            simp [List.append_assoc]
          · rw [← hm]
            simp only [List.length_append]
            omega

theorem findFirstAux_consumes :
    ∀ (l m r : List Char), findFirstAux l = some (m, r) → r.length < l.length := by
  intro l
  induction l with
  | nil => intro m r h; exact absurd h (by simp [findFirstAux])
  | cons c rest ih =>
    intro m r h
    unfold findFirstAux at h
    split at h
    · rename_i m0 r0 hmt
      obtain ⟨hm, hr⟩ : m0 = m ∧ r0 = r := by simpa using h
      subst hm; subst hr
      obtain ⟨heq, hpos⟩ := matchTokenAt_append hmt
      rw [heq]
      simp only [List.length_append]
      omega
    · exact Nat.lt_trans (ih m r h) (by simp)

theorem findAllFuel_stable :
    ∀ (f : Nat) (l : List Char), l.length < f → findAllFuel f l = findAllAux l := by
  intro f
  induction f using Nat.strong_induction_on with
  | _ f ih =>
    intro l h
    obtain ⟨g, rfl⟩ : ∃ g, f = g + 1 := ⟨f - 1, by omega⟩
    unfold findAllAux
    cases hf : findFirstAux l with
    | none => simp only [findAllFuel, hf]
    | some pr =>
      obtain ⟨m, r⟩ := pr
      have hr : r.length < l.length := findFirstAux_consumes l m r hf
      simp only [findAllFuel, hf]
      congr 1
      rw [ih g (by omega) r (by omega), ih l.length (by omega) r (by omega)]

/-- Claim C1: a blocklist entry is retained in the emitted set iff no
whitelist entry covers it, where coverage is the exact textual match
fast path or a non-strict (overlap policy) isIPInCIDR test against some
whitelist entry; and the concrete filtering example of the spec produces
exactly the two uncovered entries. -/
theorem writeBlocklistFilterCharacterization :
    (∀ (whitelist blocklist : List String) (a : String),
        a ∈ writeBlocklistFile whitelist blocklist ↔
          a ∈ blocklist ∧
            ¬(a ∈ whitelist ∨ ∃ c ∈ whitelist, isIPInCIDR a c false = true)) ∧
    writeBlocklistFile ["104.131.107.63", "122.248.234.23", "216.144.248.16/28"]
        ["45.135.193.100", "216.144.248.20", "122.248.234.23", "192.168.1.1"] =
      ["45.135.193.100", "192.168.1.1"] := by
  constructor
  · intro wl bl a
    unfold writeBlocklistFile
    rw [List.mem_filter]
    constructor
    · rintro ⟨h1, h2⟩
      rw [Bool.not_eq_true'] at h2
      refine ⟨h1, fun hcov => ?_⟩
      rw [← isIPWhitelisted_iff, h2] at hcov
      exact absurd hcov (by simp)
    · rintro ⟨h1, h2⟩
      refine ⟨h1, ?_⟩
      rw [Bool.not_eq_true']
      cases hw : isIPWhitelisted a wl with
      | false => rfl
      | true => exact absurd ((isIPWhitelisted_iff a wl).mp hw) h2
  · decide

/-- Claim C4 counterexample: a malformed entry present verbatim in the
whitelist does suppress the identical malformed blocklist entry through
the exact-match fast path, so a malformed whitelist entry can suppress,
and the malformed candidate does not remain in the filter output. -/
theorem malformedExactMatchSuppression :
    parseIP "999.999.999.999" = none ∧
    parseCIDR "999.999.999.999" = none ∧
    isIPWhitelisted "999.999.999.999" ["999.999.999.999"] = true ∧
    writeBlocklistFile ["999.999.999.999"] ["999.999.999.999"] = [] := by decide

/-- Claim C4 (amended): a containment comparison with an unparseable
operand returns false, so a malformed whitelist entry never suppresses
through containment comparisons (only through the exact-text fast path),
and a malformed blocklist entry matches no whitelist entry and stays in
the filter output unless its exact text occurs in the whitelist. -/
theorem malformedOperandsNotCovered :
    (∀ (a b : String) (m : Bool),
        (parseIP a = none ∧ parseCIDR a = none) ∨
          (parseIP b = none ∧ parseCIDR b = none) →
        isIPInCIDR a b m = false) ∧
    (∀ (b : String) (wl : List String),
        parseIP b = none → parseCIDR b = none → b ∉ wl →
        isIPWhitelisted b wl = false) ∧
    (∀ (wl bl : List String) (b : String),
        b ∈ bl → parseIP b = none → parseCIDR b = none → b ∉ wl →
        b ∈ writeBlocklistFile wl bl) := by
  refine ⟨fun a b m h => isIPInCIDR_none m h,
    fun b wl h1 h2 h3 => isIPWhitelisted_malformed h1 h2 h3, ?_⟩
  intro wl bl b hin h1 h2 h3
  unfold writeBlocklistFile
  rw [List.mem_filter]
  exact ⟨hin, by rw [Bool.not_eq_true', isIPWhitelisted_malformed h1 h2 h3]⟩

/-- Claim C4 witness: concrete instances of the three amended parts. -/
theorem malformedOperandsNotCovered_witness :
    isIPInCIDR "999.999.999.999" "10.0.0.0/8" false = false ∧
    isIPWhitelisted "999.999.999.999" ["10.0.0.0/8"] = false ∧
    "999.999.999.999" ∈ writeBlocklistFile ["10.0.0.0/8"] ["999.999.999.999"] :=
  ⟨malformedOperandsNotCovered.1 _ _ _ (Or.inl ⟨by decide, by decide⟩),
   malformedOperandsNotCovered.2.1 _ _ (by decide) (by decide) (by decide),
   malformedOperandsNotCovered.2.2 _ _ _ (by decide) (by decide) (by decide) (by decide)⟩

/-- Claim C8: for textually identical parseable operands, the engine
reports coverage under both the strict and the overlap policy. -/
theorem textualEqualityCovered (s : String)
    (h : (∃ v, parseIP s = some v) ∨ ∃ r, parseCIDR s = some r) (m : Bool) :
    isIPInCIDR s s m = true := by
  rcases h with ⟨v, hv⟩ | ⟨⟨raw, p⟩, hr⟩
  · rw [isIPInCIDR_ip_ip m hv hv]
    simp
  · exact isIPInCIDR_cidr_cidr_self hr m

/-- Claim C8 witness: the concrete exact-match example of the spec,
under both policies. -/
theorem textualEqualityCovered_witness :
    isIPInCIDR "192.168.1.1" "192.168.1.1" true = true ∧
    isIPInCIDR "192.168.1.1" "192.168.1.1" false = true :=
  ⟨textualEqualityCovered _ (Or.inl ⟨3232235777, by decide⟩) true,
   textualEqualityCovered _ (Or.inl ⟨3232235777, by decide⟩) false⟩

/-- Claim C9: the overlap policy is symmetric in its two operands for
all strings, parseable or not. -/
theorem overlapPolicySymmetric (a b : String) :
    isIPInCIDR a b false = isIPInCIDR b a false := by
  cases hia : parseIP a with
  | some va =>
    cases hib : parseIP b with
    | some vb =>
      rw [isIPInCIDR_ip_ip false hia hib, isIPInCIDR_ip_ip false hib hia]
      by_cases h : va = vb
      · rw [h]
      · have hsym : ¬vb = va := fun hh => h hh.symm
        have h1 : (va == vb) = false := by simp [h]
        have h2 : (vb == va) = false := by simp [hsym]
        rw [h1, h2]
    | none =>
      cases hcb : parseCIDR b with
      | some rb =>
        obtain ⟨rawB, pB⟩ := rb
        rw [isIPInCIDR_ip_cidr false hia hcb, isIPInCIDR_cidr_ip false hcb hia]
      | none =>
        rw [isIPInCIDR_none false (Or.inr ⟨hib, hcb⟩),
          isIPInCIDR_none false (Or.inl ⟨hib, hcb⟩)]
  | none =>
    cases hca : parseCIDR a with
    | none =>
      rw [isIPInCIDR_none false (Or.inl ⟨hia, hca⟩),
        isIPInCIDR_none false (Or.inr ⟨hia, hca⟩)]
    | some ra =>
      obtain ⟨rawA, pA⟩ := ra
      cases hib : parseIP b with
      | some vb =>
        rw [isIPInCIDR_cidr_ip false hca hib, isIPInCIDR_ip_cidr false hib hca]
      | none =>
        cases hcb : parseCIDR b with
        | none =>
          rw [isIPInCIDR_none false (Or.inr ⟨hib, hcb⟩),
            isIPInCIDR_none false (Or.inl ⟨hib, hcb⟩)]
        | some rb =>
          obtain ⟨rawB, pB⟩ := rb
          by_cases hab : a = b
          · rw [hab]
          · have hba : b ≠ a := fun hh => hab hh.symm
            rw [isIPInCIDR_cidr_cidr_overlap hca hcb hab,
              isIPInCIDR_cidr_cidr_overlap hcb hca hba]
            cases h1 : cidrContains (maskU32 pB rawB) pB rawA <;>
              cases h2 : cidrContains (maskU32 pA rawA) pA rawB <;>
                simp [Bool.and_comm]

/-- Claim C9 witness: symmetry instantiated at a concrete IP and CIDR
pair. -/
theorem overlapPolicySymmetric_witness :
    isIPInCIDR "216.144.248.28" "216.144.248.16/28" false =
      isIPInCIDR "216.144.248.16/28" "216.144.248.28" false :=
  overlapPolicySymmetric _ _

/-- Claim C1 witness: the general filter characterization instantiated
at a concrete retained entry. -/
theorem writeBlocklistFilterCharacterization_witness :
    "45.135.193.100" ∈ writeBlocklistFile
        ["104.131.107.63", "122.248.234.23", "216.144.248.16/28"]
        ["45.135.193.100", "216.144.248.20", "122.248.234.23", "192.168.1.1"] ↔
      ("45.135.193.100" ∈
          ["45.135.193.100", "216.144.248.20", "122.248.234.23", "192.168.1.1"] ∧
        ¬("45.135.193.100" ∈ ["104.131.107.63", "122.248.234.23", "216.144.248.16/28"] ∨
          ∃ c ∈ ["104.131.107.63", "122.248.234.23", "216.144.248.16/28"],
            isIPInCIDR "45.135.193.100" c false = true)) :=
  writeBlocklistFilterCharacterization.1 _ _ _

end ThreatList
